import Mathlib

/-!
Verification development for the setsound audio-editing suite.

The definitions below are a shallow embedding of the segment-based editing
core: the buffer utilities (src/utils/audioUtils.ts), the segment and track
mutation operations of the joiner and cutter (src/components/tools/
AudioJoiner.tsx), the bounded undo/redo history (src/hooks/useHistory.ts)
and the playback synchronizer (src/hooks/useAudioPlayer.ts).

Machine floats are embedded as exact rationals; JS `Math.floor` becomes
`Int.floor` and Float32Array sample stores become `List ℚ`.  Out-of-range
float-array reads (`data[i] || 0`) become `List.getD _ _ 0`.
-/

namespace SetSound

/-- A Web Audio `AudioBuffer`: channel count, frame count, sample rate and
per-channel sample data.  `length` mirrors the `length` property fixed at
`createBuffer` time; well-formed buffers have `channels.length =
numChannels` and every channel of size `length`. -/
structure AudioBuffer where
  numChannels : Nat
  length : Nat
  sampleRate : ℚ
  channels : List (List ℚ)
deriving Repr, DecidableEq, Inhabited

/-- `buffer.duration = length / sampleRate` (Web Audio semantics). -/
def AudioBuffer.duration (b : AudioBuffer) : ℚ :=
  (b.length : ℚ) / b.sampleRate

/-- `getChannelData(c)`; out-of-range channel reads give the empty store. -/
def AudioBuffer.channelData (b : AudioBuffer) (c : Nat) : List ℚ :=
  b.channels.getD c []

/-- `AudioUtils.trimAudioBuffer(audioBuffer, startTime, endTime)`:
clamp the times, floor them to sample indices, keep at least one sample,
and copy `oldData[startSample + i] || 0` into the new buffer. -/
def trimAudioBuffer (b : AudioBuffer) (startTime endTime : ℚ) : AudioBuffer :=
  let validStartTime := max 0 (min startTime b.duration)
  let validEndTime := max validStartTime (min endTime b.duration)
  let startSample := (Int.floor (validStartTime * b.sampleRate)).toNat
  let endSample := (Int.floor (validEndTime * b.sampleRate)).toNat
  let newLength := max 1 (endSample - startSample)
  { numChannels := b.numChannels
    length := newLength
    sampleRate := b.sampleRate
    channels := (List.range b.numChannels).map (fun c =>
      (List.range newLength).map (fun i => (b.channelData c).getD (startSample + i) 0)) }

/-- `AudioUtils.mergeAudioBuffers(buffers)`: throws on an empty list,
otherwise concatenates the buffers end to end; the channel count is the
maximum across inputs and a buffer with fewer channels contributes its
last channel to the extra output channels. -/
def mergeAudioBuffers (buffers : List AudioBuffer) : Except String AudioBuffer :=
  match buffers with
  | [] => .error "No buffers to merge"
  | b0 :: _ =>
    let sampleRate := b0.sampleRate
    let numberOfChannels := buffers.foldl (fun m b => max m b.numChannels) 0
    let totalLength := (buffers.map (fun b => b.length)).sum
    .ok
      { numChannels := numberOfChannels
        length := totalLength
        sampleRate := sampleRate
        channels := (List.range numberOfChannels).map (fun c =>
          (buffers.map (fun b =>
            (List.range b.length).map (fun i =>
              (b.channelData (min c (b.numChannels - 1))).getD i 0))).flatten) }

/-- One buffer's contribution to the running sum at channel `c`, index `i`
during `mixAudioBuffers` (the source only writes indices `i < b.length`;
untouched indices keep their previous value, i.e. gain a `+ 0`). -/
def mixContribution (c i : Nat) (b : AudioBuffer) : ℚ :=
  if i < b.length then (b.channelData (min c (b.numChannels - 1))).getD i 0 else 0

/-- `AudioUtils.mixAudioBuffers(buffers)`: throws on an empty list,
otherwise sums the buffers sample-for-sample into a zero-initialised
buffer of the maximal input length, then per channel computes the peak
and, when it exceeds 1.0, scales the whole channel by `1.0 / peak`. -/
def mixAudioBuffers (buffers : List AudioBuffer) : Except String AudioBuffer :=
  match buffers with
  | [] => .error "No buffers to mix"
  | b0 :: _ =>
    let sampleRate := b0.sampleRate
    let numberOfChannels := buffers.foldl (fun m b => max m b.numChannels) 0
    let maxLength := buffers.foldl (fun m b => max m b.length) 0
    let zeroChannels := (List.range numberOfChannels).map (fun _ =>
      (List.range maxLength).map (fun _ => (0 : ℚ)))
    let summed := buffers.foldl (fun acc b =>
      (List.range numberOfChannels).map (fun c =>
        (List.range maxLength).map (fun i =>
          (acc.getD c []).getD i 0 + mixContribution c i b))) zeroChannels
    let normalized := summed.map (fun data =>
      let peak := data.foldl (fun p x => max p |x|) 0
      if 1 < peak then data.map (fun x => x * (1 / peak)) else data)
    .ok
      { numChannels := numberOfChannels
        length := maxLength
        sampleRate := sampleRate
        channels := normalized }

/-- `AudioSegment` from src/types: a contiguous timeline slice backed by
its own buffer. -/
structure AudioSegment where
  id : String
  buffer : AudioBuffer
  startTime : ℚ
  endTime : ℚ
  selected : Bool
deriving Repr, DecidableEq, Inhabited

/-- `TrackWithSegments` from AudioJoiner: a track plus its segment list and
the ephemeral selection field. -/
structure AudioTrack where
  id : String
  name : String
  buffer : AudioBuffer
  duration : ℚ
  segments : List AudioSegment
  selectedSegmentId : Option String
deriving Repr, DecidableEq, Inhabited

/-- The position-recompute walk shared by delete/resize (and the cut loop):
walk the list left to right, assigning `startTime := currentPosition` and
`endTime := currentPosition + seg.buffer.duration`. -/
def retile (pos : ℚ) : List AudioSegment → List AudioSegment
  | [] => []
  | seg :: rest =>
    { seg with startTime := pos, endTime := pos + seg.buffer.duration } ::
      retile (pos + seg.buffer.duration) rest

/-- The body of `handleCutTrack`'s loop: at most one segment strictly
containing `cutTime` (with the 0.01 guards) is split via two trims; every
segment is re-positioned from the accumulated durations.  The fresh ids of
the two pieces (`Date.now()` strings in the source) are embedded as
constants. -/
def cutLoop (cutTime : ℚ) : Bool → ℚ → List AudioSegment → List AudioSegment
  | _, _, [] => []
  | cutMade, pos, seg :: rest =>
    if cutMade = false ∧ seg.startTime + 1/100 < cutTime ∧ cutTime < seg.endTime - 1/100 then
      let relativeTime := cutTime - seg.startTime
      let beforeBuffer := trimAudioBuffer seg.buffer 0 relativeTime
      let afterBuffer := trimAudioBuffer seg.buffer relativeTime seg.buffer.duration
      { id := "cutA", buffer := beforeBuffer, startTime := pos,
        endTime := pos + beforeBuffer.duration, selected := false } ::
      { id := "cutB", buffer := afterBuffer, startTime := pos + beforeBuffer.duration,
        endTime := pos + beforeBuffer.duration + afterBuffer.duration, selected := false } ::
      cutLoop cutTime true (pos + beforeBuffer.duration + afterBuffer.duration) rest
    else
      { seg with startTime := pos, endTime := pos + seg.buffer.duration } ::
        cutLoop cutTime cutMade (pos + seg.buffer.duration) rest

/-- The `cutMade` flag at the end of `handleCutTrack`'s loop. -/
def cutFound (cutTime : ℚ) : Bool → List AudioSegment → Bool
  | cutMade, [] => cutMade
  | cutMade, seg :: rest =>
    if cutMade = false ∧ seg.startTime + 1/100 < cutTime ∧ cutTime < seg.endTime - 1/100 then
      cutFound cutTime true rest
    else
      cutFound cutTime cutMade rest

/-- The segments produced by the cut loop before positioning: the cut
segment is replaced by its two trimmed pieces (positions zeroed; `retile`
assigns them).  `cutLoop ct cm pos segs = retile pos (expandCut ct cm
segs)` is proved below. -/
def expandCut (cutTime : ℚ) : Bool → List AudioSegment → List AudioSegment
  | _, [] => []
  | cutMade, seg :: rest =>
    if cutMade = false ∧ seg.startTime + 1/100 < cutTime ∧ cutTime < seg.endTime - 1/100 then
      { id := "cutA", buffer := trimAudioBuffer seg.buffer 0 (cutTime - seg.startTime),
        startTime := 0, endTime := 0, selected := false } ::
      { id := "cutB",
        buffer := trimAudioBuffer seg.buffer (cutTime - seg.startTime) seg.buffer.duration,
        startTime := 0, endTime := 0, selected := false } ::
      expandCut cutTime true rest
    else
      seg :: expandCut cutTime cutMade rest

/-- `handleCutTrack(trackId, cutTime)` of AudioJoiner: find the track,
run the cut loop, and commit (push) only when a cut was made. -/
def handleCutTrack (tracks : List AudioTrack) (trackId : String) (cutTime : ℚ) :
    List AudioTrack :=
  let trackIndex := tracks.findIdx (fun t => t.id == trackId)
  if trackIndex < tracks.length then
    let track := tracks.getD trackIndex default
    let newSegments := cutLoop cutTime false 0 track.segments
    if cutFound cutTime false track.segments then
      tracks.set trackIndex { track with segments := newSegments }
    else tracks
  else tracks

/-- `handleDeleteSegment(trackId, segmentId)` of AudioJoiner: drop the
segment; when none remain, remove the whole track, otherwise re-merge the
remaining buffers, re-position the segments and commit.  The source's
catch-arm (state unchanged) corresponds to the `.error` case. -/
def handleDeleteSegment (tracks : List AudioTrack) (trackId segmentId : String) :
    List AudioTrack :=
  let trackIndex := tracks.findIdx (fun t => t.id == trackId)
  if trackIndex < tracks.length then
    let track := tracks.getD trackIndex default
    let newSegments := track.segments.filter (fun seg => !(seg.id == segmentId))
    if newSegments.isEmpty then
      tracks.filter (fun t => !(t.id == trackId))
    else
      match mergeAudioBuffers (newSegments.map (fun seg => seg.buffer)) with
      | .error _ => tracks
      | .ok mergedTrackBuffer =>
        tracks.set trackIndex
          { track with
            buffer := mergedTrackBuffer
            duration := mergedTrackBuffer.duration
            segments := retile 0 newSegments
            selectedSegmentId := none }
  else tracks

/-- `handleResizeSegment(trackId, segmentId, newSegments)` of AudioJoiner:
take the resized segment out of the UI-supplied list, splice it into the
track's segment list, re-merge and re-position everything, and commit. -/
def handleResizeSegment (tracks : List AudioTrack) (trackId segmentId : String)
    (newSegments : List AudioSegment) : List AudioTrack :=
  let trackIndex := tracks.findIdx (fun t => t.id == trackId)
  if trackIndex < tracks.length then
    let track := tracks.getD trackIndex default
    let resizedSegmentIndex := newSegments.findIdx (fun s => s.id == segmentId)
    if resizedSegmentIndex < newSegments.length then
      let resizedSegment := newSegments.getD resizedSegmentIndex default
      let updatedSegments := track.segments.set resizedSegmentIndex resizedSegment
      match mergeAudioBuffers (updatedSegments.map (fun seg => seg.buffer)) with
      | .error _ => tracks
      | .ok mergedTrackBuffer =>
        tracks.set trackIndex
          { track with
            buffer := mergedTrackBuffer
            duration := mergedTrackBuffer.duration
            segments := retile 0 updatedSegments }
    else tracks
  else tracks

/-- `toggleSegmentSelection(trackId, segmentId)` of AudioJoiner: toggle the
selection on the addressed track and clear it on every other track.  The
result is what the component passes to `push`. -/
def toggleSegmentSelection (tracks : List AudioTrack) (trackId segmentId : String) :
    List AudioTrack :=
  tracks.map (fun track =>
    if track.id == trackId then
      { track with selectedSegmentId :=
          if track.selectedSegmentId == some segmentId then none else some segmentId }
    else { track with selectedSegmentId := none })

/-- The per-track loop of `mergeTracks`: each track's segment buffers are
merged in order, collecting one buffer per track (errors propagate to the
surrounding catch). -/
def collectTrackBuffers : List AudioTrack → Except String (List AudioBuffer)
  | [] => .ok []
  | t :: rest => do
    let trackMerged ← mergeAudioBuffers (t.segments.map (fun seg => seg.buffer))
    let restBuffers ← collectTrackBuffers rest
    .ok (trackMerged :: restBuffers)

/-- `mergeTracks` of AudioJoiner: merge each track's segments, then merge
the per-track results into the playable preview buffer. -/
def mergeTracks (tracks : List AudioTrack) : Except String AudioBuffer := do
  let allBuffers ← collectTrackBuffers tracks
  mergeAudioBuffers allBuffers

/-- Which segment edge is being dragged in the resize effects. -/
inductive ResizeEdge where
  | startEdge
  | endEdge
deriving Repr, DecidableEq

/-- The segment-resize mouse-move handler shared by AudioCutter (lines
981-1054) and TrackTimeline (lines 621-693): clamp the pointer time, skip
moves below the 0.01 threshold, re-trim the buffer and write back the
segment with the opposite edge held fixed.  Returns the new segment list
handed to `push` (cutter) or `onResizeSegment` (joiner). -/
def resizeSegmentsStep (segments : List AudioSegment) (duration : ℚ)
    (segId : String) (edge : ResizeEdge) (newTime : ℚ) : List AudioSegment :=
  let segmentIndex := segments.findIdx (fun s => s.id == segId)
  if segmentIndex < segments.length then
    let segment := segments.getD segmentIndex default
    match edge with
    | .startEdge =>
      let maxStart := segment.endTime - 1/10
      let clampedTime := max 0 (min newTime maxStart)
      if 1/100 < |clampedTime - segment.startTime| then
        let trimAmount := clampedTime - segment.startTime
        let newBuffer := trimAudioBuffer segment.buffer trimAmount segment.buffer.duration
        segments.set segmentIndex
          { segment with
            buffer := newBuffer
            startTime := segment.endTime - newBuffer.duration
            endTime := segment.endTime }
      else segments
    | .endEdge =>
      let minEnd := segment.startTime + 1/10
      let clampedTime := max minEnd (min newTime duration)
      if 1/100 < |clampedTime - segment.endTime| then
        let newDuration := clampedTime - segment.startTime
        let newBuffer := trimAudioBuffer segment.buffer 0 newDuration
        segments.set segmentIndex
          { segment with
            buffer := newBuffer
            startTime := segment.startTime
            endTime := segment.startTime + newBuffer.duration }
      else segments
  else segments

/-- `handleDeleteSegment(segmentId)` of the single-buffer AudioCutter:
refuse to delete the last remaining segment (alert, state unchanged),
otherwise re-merge and re-position.  First component: the alert shown, if
any; second: the segment list after the operation. -/
def cutterDeleteSegment (segments : List AudioSegment) (segmentId : String) :
    Option String × List AudioSegment :=
  let newSegments := segments.filter (fun seg => !(seg.id == segmentId))
  if newSegments.isEmpty then
    (some "Vous devez garder au moins un segment", segments)
  else
    match mergeAudioBuffers (newSegments.map (fun seg => seg.buffer)) with
    | .error _ => (some "Erreur lors de la suppression", segments)
    | .ok _ => (none, retile 0 newSegments)

/-- The state of `useHistory`: the snapshot stack and the cursor. -/
structure HistoryState (T : Type) where
  history : List T
  currentIndex : Nat
deriving Repr, DecidableEq

namespace HistoryState

/-- `push(newState)`: truncate the redo branch, append, and when the cap is
exceeded shift off the oldest entry; the cursor always ends on the new
entry. -/
def push {T : Type} (maxHistory : Nat) (st : HistoryState T) (newState : T) :
    HistoryState T :=
  let newHistory := st.history.take (st.currentIndex + 1) ++ [newState]
  if maxHistory < newHistory.length then
    { history := newHistory.drop 1, currentIndex := newHistory.length - 2 }
  else
    { history := newHistory, currentIndex := newHistory.length - 1 }

/-- `current = history[currentIndex]`. -/
def current {T : Type} [Inhabited T] (st : HistoryState T) : T :=
  st.history.getD st.currentIndex default

/-- `canUndo = currentIndex > 0`. -/
def canUndo {T : Type} (st : HistoryState T) : Bool :=
  decide (0 < st.currentIndex)

/-- `canRedo = currentIndex < history.length - 1`. -/
def canRedo {T : Type} (st : HistoryState T) : Bool :=
  decide (st.currentIndex < st.history.length - 1)

/-- `undo()`: move the cursor back unless it is at 0. -/
def undo {T : Type} (st : HistoryState T) : HistoryState T :=
  if 0 < st.currentIndex then { st with currentIndex := st.currentIndex - 1 } else st

/-- `redo()`: move the cursor forward unless it is at the top. -/
def redo {T : Type} (st : HistoryState T) : HistoryState T :=
  if st.currentIndex < st.history.length - 1 then
    { st with currentIndex := st.currentIndex + 1 }
  else st

/-- `reset(newInitialState)`: fresh single-entry stack. -/
def reset {T : Type} (newInitialState : T) : HistoryState T :=
  { history := [newInitialState], currentIndex := 0 }

/-- A sequence of pushes with no intervening undo/redo. -/
def pushAll {T : Type} (maxHistory : Nat) (st : HistoryState T) (l : List T) :
    HistoryState T :=
  l.foldl (push maxHistory) st

/-- `undo()` called `n` times. -/
def undoN {T : Type} : Nat → HistoryState T → HistoryState T
  | 0, st => st
  | n + 1, st => undoN n (undo st)

end HistoryState

/-- The joiner's selection click as it reaches the history: read the current
track list, toggle, and push the result. -/
def joinerToggleSelection (maxHistory : Nat) (h : HistoryState (List AudioTrack))
    (trackId segmentId : String) : HistoryState (List AudioTrack) :=
  h.push maxHistory (toggleSegmentSelection h.current trackId segmentId)

/-- The `useAudioPlayer` state: the playing flag, the displayed time, the
two clock anchors (`startTimeRef`, `pauseTimeRef`), whether a source node is
connected, and the buffer duration. -/
structure PlayerState where
  isPlaying : Bool
  currentTime : ℚ
  startTimeRef : ℚ
  pauseTimeRef : ℚ
  sourceActive : Bool
  duration : ℚ
deriving Repr, DecidableEq

namespace PlayerState

/-- `updateTime` of useAudioPlayer at audio-clock instant `ctxTime`: derive
the logical position from the anchors; while short of the end keep
animating, otherwise stop, reset the displayed time and the resting
position to 0. -/
def updateTime (s : PlayerState) (ctxTime : ℚ) : PlayerState :=
  let elapsed := ctxTime - s.startTimeRef + s.pauseTimeRef
  let newTime := min elapsed s.duration
  if newTime < s.duration - 1/100 then
    { s with currentTime := newTime }
  else
    { s with currentTime := 0, isPlaying := false, pauseTimeRef := 0 }

/-- `pause` of useAudioPlayer: only acts while a source is connected;
persists the derived logical position into `pauseTimeRef` and stops. -/
def pause (s : PlayerState) (ctxTime : ℚ) : PlayerState :=
  if s.sourceActive then
    { s with
      sourceActive := false
      pauseTimeRef := ctxTime - s.startTimeRef + s.pauseTimeRef
      isPlaying := false }
  else s

/-- `play(startFrom?)` of useAudioPlayer: an omitted offset resumes from
`pauseTimeRef`; a new source is started and the anchors are re-seeded. -/
def play (s : PlayerState) (ctxTime : ℚ) (startFrom : Option ℚ) : PlayerState :=
  let playFrom := startFrom.getD s.pauseTimeRef
  { s with
    sourceActive := true
    startTimeRef := ctxTime
    pauseTimeRef := playFrom
    isPlaying := true }

end PlayerState

/-- Sum of the buffer durations of a segment list. -/
def segSum (segs : List AudioSegment) : ℚ :=
  (segs.map (fun s => s.buffer.duration)).sum

/-- Adjacent tiling check: startTimes are non-decreasing (the list is
sorted, so sorting it by startTime is the identity) and each segment's
endTime meets the next startTime within `tol`. -/
def chainB (tol : ℚ) : List AudioSegment → Bool
  | [] => true
  | [_] => true
  | a :: b :: rest =>
    (decide (a.startTime ≤ b.startTime) && decide (|a.endTime - b.startTime| ≤ tol)) &&
      chainB tol (b :: rest)

/-- The tiling invariant of the spec: sorted by startTime, the first
startTime is 0, each endTime meets the next startTime, and the last
endTime is the track duration, all within `tol`. -/
def tilesB (tol dur : ℚ) (segs : List AudioSegment) : Bool :=
  match segs with
  | [] => true
  | s :: _ =>
    decide (|s.startTime| ≤ tol) && chainB tol segs &&
      decide (|(segs.getLastD default).endTime - dur| ≤ tol)

/-- Per-segment well-formedness for the tiling proofs: the buffer carries
the session sample rate, and the segment's span equals its buffer's
duration. -/
def segWF (sr : ℚ) (s : AudioSegment) : Prop :=
  s.buffer.sampleRate = sr ∧ s.endTime - s.startTime = s.buffer.duration

instance (sr : ℚ) (s : AudioSegment) : Decidable (segWF sr s) := by
  unfold segWF; infer_instance

/-- Track-level well-formedness: every segment is well formed and the sum
of segment durations agrees with the cached track duration within 0.05s. -/
def trackWF (sr : ℚ) (t : AudioTrack) : Prop :=
  (∀ s ∈ t.segments, segWF sr s) ∧ |segSum t.segments - t.duration| ≤ 1/20

instance (sr : ℚ) (t : AudioTrack) : Decidable (trackWF sr t) := by
  unfold trackWF; infer_instance

/-- Duration of a merge/mix result, 0 on error (used only to state concrete
counterexamples). -/
def exceptDuration (r : Except String AudioBuffer) : ℚ :=
  match r with
  | .ok b => b.duration
  | .error _ => 0

/-- Length of a merge/mix result, 0 on error (used only to state concrete
counterexamples). -/
def exceptLength (r : Except String AudioBuffer) : Nat :=
  match r with
  | .ok b => b.length
  | .error _ => 0

/-- The maximal buffer length of a list, as `mixAudioBuffers` computes it
(`Math.max` over a fold). -/
def maxLenOf (bs : List AudioBuffer) : Nat :=
  bs.foldl (fun m b => max m b.length) 0

/-- The maximal channel count of a list, as `mixAudioBuffers` and
`mergeAudioBuffers` compute it. -/
def maxChOf (bs : List AudioBuffer) : Nat :=
  bs.foldl (fun m b => max m b.numChannels) 0

/-- The pre-normalisation mixed sample at channel `c`, index `i`: the sum
of every buffer's contribution, shorter buffers counting as zero. -/
def mixPre (bs : List AudioBuffer) (c i : Nat) : ℚ :=
  (bs.map (mixContribution c i)).sum

/-- The peak (maximal absolute sample) of a channel, as the normalisation
loop of `mixAudioBuffers` computes it. -/
def peakOf (data : List ℚ) : ℚ :=
  data.foldl (fun p x => max p |x|) 0

/-- Clamp of a requested time to `[0, buffer.duration]` as the spec words
it ("both bounds clamped to [0, buffer.duration]"); stated for comparison
with the clamping `trimAudioBuffer` actually performs. -/
def clampTimeTo (b : AudioBuffer) (t : ℚ) : ℚ :=
  max 0 (min t b.duration)

/-- Sample index of a clamped time (floor of time times sample rate). -/
def clampedSampleIndex (b : AudioBuffer) (t : ℚ) : Nat :=
  (Int.floor (clampTimeTo b t * b.sampleRate)).toNat

/-! ### Concrete fixtures used by witnesses and counterexamples -/

/-- A mono buffer of 10 samples at 1 Hz (duration 10 s); sample reads on the
missing channel data give 0, which is all these tests need. -/
def buf1 : AudioBuffer := ⟨1, 10, 1, []⟩

/-- A segment spanning `buf1` at [0, 10]. -/
def seg1 : AudioSegment := ⟨"s1", buf1, 0, 10, false⟩

/-- A track holding the single segment `seg1`. -/
def track1 : AudioTrack := ⟨"t1", "one", buf1, 10, [seg1], none⟩

/-- A mono buffer of 2 samples at 1 Hz. -/
def buf2 : AudioBuffer := ⟨1, 2, 1, []⟩

/-- A mono buffer of 3 samples at 1 Hz. -/
def buf3 : AudioBuffer := ⟨1, 3, 1, []⟩

/-- A track holding `buf2` as its single segment. -/
def track2 : AudioTrack := ⟨"t2", "two", buf2, 2, [⟨"sA", buf2, 0, 2, false⟩], none⟩

/-- A track holding `buf3` as its single segment. -/
def track3 : AudioTrack := ⟨"t3", "three", buf3, 3, [⟨"sB", buf3, 0, 3, false⟩], none⟩

/-- A mono buffer of 1000 samples at 100 Hz (duration 10 s). -/
def bufW : AudioBuffer := ⟨1, 1000, 100, []⟩

/-- A segment spanning `bufW` at [0, 10]. -/
def segW : AudioSegment := ⟨"s1", bufW, 0, 10, false⟩

/-- A well-formed 100 Hz track holding the single segment `segW`. -/
def trackW : AudioTrack := ⟨"t1", "w", bufW, 10, [segW], none⟩

/-! ## General lemmas -/

theorem drop_append_drop {α : Type} (x y : List α) (d m : Nat) (h : d ≤ x.length) :
    (x ++ y).drop (d + m) = (x.drop d ++ y).drop m := by
  rw [← List.drop_drop, List.drop_append_of_le_length h]

/-! ## useHistory: push/undo/redo behaviour (claim C5, C4) -/

theorem HistoryState.push_inv {T : Type} (maxH : Nat) (hmax : 1 ≤ maxH)
    (st : HistoryState T) (x : T)
    (h1 : st.currentIndex = st.history.length - 1) (h2 : st.history ≠ [])
    (h3 : st.history.length ≤ maxH) :
    (st.push maxH x).history = (st.history ++ [x]).drop (st.history.length + 1 - maxH) ∧
    (st.push maxH x).currentIndex = (st.push maxH x).history.length - 1 ∧
    (st.push maxH x).history.length = min (st.history.length + 1) maxH ∧
    (st.push maxH x).history ≠ [] := by
  have hL : 1 ≤ st.history.length := List.length_pos.mpr h2
  have htake : st.history.take (st.currentIndex + 1) = st.history := by
    rw [h1, Nat.sub_add_cancel hL, List.take_length]
  have hpush : st.push maxH x =
      if maxH < (st.history ++ [x]).length then
        { history := (st.history ++ [x]).drop 1,
          currentIndex := (st.history ++ [x]).length - 2 }
      else
        { history := st.history ++ [x],
          currentIndex := (st.history ++ [x]).length - 1 } := by
    simp only [push, htake]
  rcases Nat.lt_or_ge maxH (st.history ++ [x]).length with hcap | hcap
  · rw [hpush, if_pos hcap]
    simp only [List.length_append, List.length_singleton] at hcap
    refine ⟨?_, ?_, ?_, ?_⟩
    · show (st.history ++ [x]).drop 1 =
        (st.history ++ [x]).drop (st.history.length + 1 - maxH)
      congr 1
      omega
    · show (st.history ++ [x]).length - 2 = ((st.history ++ [x]).drop 1).length - 1
      simp only [List.length_drop, List.length_append, List.length_singleton]
      omega
    · show ((st.history ++ [x]).drop 1).length = min (st.history.length + 1) maxH
      simp only [List.length_drop, List.length_append, List.length_singleton]
      omega
    · show (st.history ++ [x]).drop 1 ≠ []
      apply List.length_pos.mp
      simp only [List.length_drop, List.length_append, List.length_singleton]
      omega
  · rw [hpush, if_neg (Nat.not_lt.mpr hcap)]
    simp only [List.length_append, List.length_singleton] at hcap
    refine ⟨?_, rfl, ?_, by simp⟩
    · show st.history ++ [x] =
        (st.history ++ [x]).drop (st.history.length + 1 - maxH)
      rw [Nat.sub_eq_zero_of_le (by omega), List.drop_zero]
    · show (st.history ++ [x]).length = min (st.history.length + 1) maxH
      simp only [List.length_append, List.length_singleton]
      omega

theorem HistoryState.pushAll_inv {T : Type} (maxH : Nat) (hmax : 1 ≤ maxH) :
    ∀ (l : List T) (st : HistoryState T),
      st.currentIndex = st.history.length - 1 → st.history ≠ [] →
      st.history.length ≤ maxH →
      (st.pushAll maxH l).history =
        (st.history ++ l).drop (st.history.length + l.length - maxH) ∧
      (st.pushAll maxH l).currentIndex = (st.pushAll maxH l).history.length - 1 ∧
      (st.pushAll maxH l).history.length = min (st.history.length + l.length) maxH := by
  intro l
  induction l with
  | nil =>
    intro st h1 h2 h3
    simp only [pushAll, List.foldl_nil, List.append_nil, List.length_nil, Nat.add_zero]
    rw [Nat.sub_eq_zero_of_le h3, List.drop_zero]
    exact ⟨rfl, h1, (Nat.min_eq_left h3).symm⟩
  | cons a l ih =>
    intro st h1 h2 h3
    obtain ⟨hh, hi, hlen, hne⟩ := HistoryState.push_inv maxH hmax st a h1 h2 h3
    have hle : (st.push maxH a).history.length ≤ maxH := by
      rw [hlen]; exact Nat.min_le_right _ _
    obtain ⟨kh, ki, klen⟩ := ih (st.push maxH a) hi hne hle
    have hstep : st.pushAll maxH (a :: l) = (st.push maxH a).pushAll maxH l := rfl
    have hd : st.history.length + 1 - maxH ≤ (st.history ++ [a]).length := by
      simp only [List.length_append, List.length_singleton]
      omega
    refine ⟨?_, ?_, ?_⟩
    · rw [hstep, kh, hh]
      have hsplit : st.history ++ a :: l = (st.history ++ [a]) ++ l := by simp
      have hm : (List.drop (st.history.length + 1 - maxH) (st.history ++ [a])).length =
          st.history.length + 1 - (st.history.length + 1 - maxH) := by
        simp only [List.length_drop, List.length_append, List.length_singleton]
      rw [hm, hsplit, ← drop_append_drop _ _ _ _ hd]
      congr 1
      simp only [List.length_cons]
      omega
    · rw [hstep]; exact ki
    · rw [hstep, klen, hlen]
      simp only [List.length_cons]
      have h4 : min (st.history.length + 1) maxH = min (st.history.length + 1) maxH := rfl
      omega

theorem HistoryState.undoN_components {T : Type} :
    ∀ (n : Nat) (st : HistoryState T), n ≤ st.currentIndex →
      (HistoryState.undoN n st).history = st.history ∧
      (HistoryState.undoN n st).currentIndex = st.currentIndex - n := by
  intro n
  induction n with
  | zero => intro st _; exact ⟨rfl, rfl⟩
  | succ n ih =>
    intro st h
    have h0 : 0 < st.currentIndex := by omega
    have hu : HistoryState.undo st = { st with currentIndex := st.currentIndex - 1 } := by
      rw [HistoryState.undo, if_pos h0]
    rw [HistoryState.undoN, hu]
    obtain ⟨a, b⟩ := ih { st with currentIndex := st.currentIndex - 1 }
      (show n ≤ st.currentIndex - 1 by omega)
    refine ⟨a, ?_⟩
    rw [b]
    show st.currentIndex - 1 - n = st.currentIndex - (n + 1)
    omega

/-- C5.  Pushing `maxHistory + k` states (k ≥ 1) from the fresh single-entry
history, with no intervening undo, leaves exactly `maxHistory` entries —
the last `maxHistory` pushed states, the initial entry having been evicted
— with the cursor on the most recent push; undoing all the way reaches the
oldest retained push (the (k+1)-st push, not the evicted initial state);
one more undo at cursor 0, or a redo at the top, changes nothing. -/
theorem C5_history_bounds {T : Type} [Inhabited T] (maxHistory k : Nat) (init : T)
    (l : List T) (hmax : 1 ≤ maxHistory) (hk : 1 ≤ k)
    (hlen : l.length = maxHistory + k) :
    (HistoryState.pushAll maxHistory ⟨[init], 0⟩ l).history = l.drop k ∧
    (HistoryState.pushAll maxHistory ⟨[init], 0⟩ l).history.length = maxHistory ∧
    (HistoryState.pushAll maxHistory ⟨[init], 0⟩ l).currentIndex = maxHistory - 1 ∧
    (HistoryState.pushAll maxHistory ⟨[init], 0⟩ l).current = l.getLastD default ∧
    (HistoryState.undoN (maxHistory - 1)
        (HistoryState.pushAll maxHistory ⟨[init], 0⟩ l)).current = l.getD k default ∧
    HistoryState.undo (HistoryState.undoN (maxHistory - 1)
        (HistoryState.pushAll maxHistory ⟨[init], 0⟩ l)) =
      HistoryState.undoN (maxHistory - 1)
        (HistoryState.pushAll maxHistory ⟨[init], 0⟩ l) ∧
    HistoryState.redo (HistoryState.pushAll maxHistory ⟨[init], 0⟩ l) =
      HistoryState.pushAll maxHistory ⟨[init], 0⟩ l := by
  obtain ⟨hh, hi, hl⟩ :=
    HistoryState.pushAll_inv maxHistory hmax l ⟨[init], 0⟩ rfl (by simp)
      (by simp only [List.length_singleton]; omega)
  simp only [List.length_singleton, List.singleton_append] at hh hl
  have hdrop : (init :: l).drop (1 + l.length - maxHistory) = l.drop k := by
    have h5 : 1 + l.length - maxHistory = k + 1 := by omega
    rw [h5, List.drop_succ_cons]
  rw [hdrop] at hh
  have hlelen : (HistoryState.pushAll maxHistory ⟨[init], 0⟩ l).history.length =
      maxHistory := by
    rw [hl]; omega
  have hidx : (HistoryState.pushAll maxHistory ⟨[init], 0⟩ l).currentIndex =
      maxHistory - 1 := by
    rw [hi, hlelen]
  have hcur : (HistoryState.pushAll maxHistory ⟨[init], 0⟩ l).current =
      l.getLastD default := by
    rw [HistoryState.current, hh, hidx, List.getD_eq_getElem?_getD, List.getElem?_drop,
      List.getLastD_eq_getLast?, List.getLast?_eq_getElem?]
    congr 2
    omega
  obtain ⟨huh, hui⟩ := HistoryState.undoN_components (maxHistory - 1)
    (HistoryState.pushAll maxHistory ⟨[init], 0⟩ l) (by rw [hidx])
  have hui0 : (HistoryState.undoN (maxHistory - 1)
      (HistoryState.pushAll maxHistory ⟨[init], 0⟩ l)).currentIndex = 0 := by
    rw [hui, hidx]
    omega
  have hcur0 : (HistoryState.undoN (maxHistory - 1)
      (HistoryState.pushAll maxHistory ⟨[init], 0⟩ l)).current = l.getD k default := by
    rw [HistoryState.current, huh, hui0, hh, List.getD_eq_getElem?_getD,
      List.getElem?_drop, Nat.add_zero, List.getD_eq_getElem?_getD]
  refine ⟨hh, hlelen, hidx, hcur, hcur0, ?_, ?_⟩
  · rw [HistoryState.undo, if_neg]
    rw [hui0]
    omega
  · rw [HistoryState.redo, if_neg]
    rw [hidx, hlelen]
    omega

/-- C5 witness: cap 3, five pushes onto initial 100. -/
theorem C5_history_bounds_witness :
    (1 ≤ 3 ∧ 1 ≤ 2 ∧ [1, 2, 3, 4, 5].length = 3 + 2) ∧
    ((HistoryState.pushAll 3 ⟨[(100 : Nat)], 0⟩ [1, 2, 3, 4, 5]).history =
        [1, 2, 3, 4, 5].drop 2 ∧
      (HistoryState.pushAll 3 ⟨[(100 : Nat)], 0⟩ [1, 2, 3, 4, 5]).history.length = 3 ∧
      (HistoryState.pushAll 3 ⟨[(100 : Nat)], 0⟩ [1, 2, 3, 4, 5]).currentIndex = 3 - 1 ∧
      (HistoryState.pushAll 3 ⟨[(100 : Nat)], 0⟩ [1, 2, 3, 4, 5]).current =
        [1, 2, 3, 4, 5].getLastD default ∧
      (HistoryState.undoN (3 - 1)
          (HistoryState.pushAll 3 ⟨[(100 : Nat)], 0⟩ [1, 2, 3, 4, 5])).current =
        [1, 2, 3, 4, 5].getD 2 default ∧
      HistoryState.undo (HistoryState.undoN (3 - 1)
          (HistoryState.pushAll 3 ⟨[(100 : Nat)], 0⟩ [1, 2, 3, 4, 5])) =
        HistoryState.undoN (3 - 1)
          (HistoryState.pushAll 3 ⟨[(100 : Nat)], 0⟩ [1, 2, 3, 4, 5]) ∧
      HistoryState.redo (HistoryState.pushAll 3 ⟨[(100 : Nat)], 0⟩ [1, 2, 3, 4, 5]) =
        HistoryState.pushAll 3 ⟨[(100 : Nat)], 0⟩ [1, 2, 3, 4, 5]) :=
  ⟨⟨by decide, by decide, by decide⟩,
    C5_history_bounds 3 2 100 [1, 2, 3, 4, 5] (by decide) (by decide) (by decide)⟩

/-! ## useAudioPlayer: pause persistence and natural end (claim C10) -/

/-- C10.  Pausing persists the anchor-derived logical position as the new
resting position (`pauseTimeRef`) and a subsequent `play` with no explicit
offset resumes from exactly that position; when the derived logical
position has reached the buffer duration, `updateTime` transitions to
stopped and resets the resting position (and displayed time) to 0. -/
theorem C10_pause_resume_end_reset (s s2 : PlayerState) (ctxTime ctxTime2 : ℚ)
    (hsrc : s.sourceActive = true)
    (hend : s2.duration ≤ ctxTime2 - s2.startTimeRef + s2.pauseTimeRef) :
    ((s.pause ctxTime).pauseTimeRef = ctxTime - s.startTimeRef + s.pauseTimeRef ∧
      (s.pause ctxTime).isPlaying = false ∧
      ∀ ctxTime3 : ℚ,
        ((s.pause ctxTime).play ctxTime3 none).pauseTimeRef =
          (s.pause ctxTime).pauseTimeRef ∧
        ((s.pause ctxTime).play ctxTime3 none).isPlaying = true) ∧
    ((s2.updateTime ctxTime2).isPlaying = false ∧
      (s2.updateTime ctxTime2).pauseTimeRef = 0 ∧
      (s2.updateTime ctxTime2).currentTime = 0) := by
  constructor
  · have hp : s.pause ctxTime =
        { s with
          sourceActive := false
          pauseTimeRef := ctxTime - s.startTimeRef + s.pauseTimeRef
          isPlaying := false } := by
      rw [PlayerState.pause, if_pos hsrc]
    rw [hp]
    exact ⟨rfl, rfl, fun _ => ⟨rfl, rfl⟩⟩
  · have hmin : min (ctxTime2 - s2.startTimeRef + s2.pauseTimeRef) s2.duration =
        s2.duration := min_eq_right hend
    have hcond : ¬ (min (ctxTime2 - s2.startTimeRef + s2.pauseTimeRef) s2.duration <
        s2.duration - 1/100) := by
      rw [hmin]
      intro habs
      linarith
    have hupd : s2.updateTime ctxTime2 =
        { s2 with currentTime := 0, isPlaying := false, pauseTimeRef := 0 } := by
      rw [PlayerState.updateTime]
      exact if_neg hcond
    rw [hupd]
    exact ⟨rfl, rfl, rfl⟩

/-- C10 witness: a playing source paused at clock 7, and a player whose
derived position 12 has passed its duration 10. -/
theorem C10_pause_resume_end_reset_witness :
    ((⟨true, 0, 3, 1, true, 10⟩ : PlayerState).sourceActive = true ∧
      (10 : ℚ) ≤ 12 - (⟨true, 5, 0, 0, true, 10⟩ : PlayerState).startTimeRef +
        (⟨true, 5, 0, 0, true, 10⟩ : PlayerState).pauseTimeRef) ∧
    (((⟨true, 0, 3, 1, true, 10⟩ : PlayerState).pause 7).pauseTimeRef =
        7 - (⟨true, 0, 3, 1, true, 10⟩ : PlayerState).startTimeRef +
          (⟨true, 0, 3, 1, true, 10⟩ : PlayerState).pauseTimeRef ∧
      ((⟨true, 0, 3, 1, true, 10⟩ : PlayerState).pause 7).isPlaying = false ∧
      ∀ ctxTime3 : ℚ,
        (((⟨true, 0, 3, 1, true, 10⟩ : PlayerState).pause 7).play ctxTime3 none).pauseTimeRef =
          ((⟨true, 0, 3, 1, true, 10⟩ : PlayerState).pause 7).pauseTimeRef ∧
        (((⟨true, 0, 3, 1, true, 10⟩ : PlayerState).pause 7).play ctxTime3 none).isPlaying =
          true) ∧
    (((⟨true, 5, 0, 0, true, 10⟩ : PlayerState).updateTime 12).isPlaying = false ∧
      ((⟨true, 5, 0, 0, true, 10⟩ : PlayerState).updateTime 12).pauseTimeRef = 0 ∧
      ((⟨true, 5, 0, 0, true, 10⟩ : PlayerState).updateTime 12).currentTime = 0) :=
  ⟨⟨by with_unfolding_all decide, by with_unfolding_all decide⟩,
    (C10_pause_resume_end_reset ⟨true, 0, 3, 1, true, 10⟩ ⟨true, 5, 0, 0, true, 10⟩
      7 12 (by with_unfolding_all decide) (by with_unfolding_all decide)).1,
    (C10_pause_resume_end_reset ⟨true, 0, 3, 1, true, 10⟩ ⟨true, 5, 0, 0, true, 10⟩
      7 12 (by with_unfolding_all decide) (by with_unfolding_all decide)).2⟩

/-! ## Delete-last-segment behaviour (claim C6) -/

/-- C6.  In the single-buffer cutter, deleting the only remaining segment
is rejected: the list is returned unchanged together with the user-facing
alert.  In the multi-track joiner, deleting the last segment of a track
removes the whole track from the track list instead. -/
theorem C6_delete_last_segment (s : AudioSegment) (tracks : List AudioTrack)
    (trackId segmentId : String)
    (hidx : tracks.findIdx (fun t => t.id == trackId) < tracks.length)
    (hempty : ((tracks.getD (tracks.findIdx (fun t => t.id == trackId))
        default).segments.filter (fun seg => !(seg.id == segmentId))) = []) :
    cutterDeleteSegment [s] s.id =
      (some "Vous devez garder au moins un segment", [s]) ∧
    handleDeleteSegment tracks trackId segmentId =
      tracks.filter (fun t => !(t.id == trackId)) := by
  constructor
  · rw [cutterDeleteSegment]
    simp
  · rw [handleDeleteSegment]
    simp only [if_pos hidx, hempty, List.isEmpty_nil, if_pos]

/-- C6 witness: a one-segment cutter list and a one-segment track. -/
theorem C6_delete_last_segment_witness :
    ([track1].findIdx (fun t => t.id == "t1") < [track1].length ∧
      (([track1].getD ([track1].findIdx (fun t => t.id == "t1"))
          default).segments.filter (fun seg => !(seg.id == "s1"))) = []) ∧
    (cutterDeleteSegment [seg1] seg1.id =
        (some "Vous devez garder au moins un segment", [seg1]) ∧
      handleDeleteSegment [track1] "t1" "s1" =
        [track1].filter (fun t => !(t.id == "t1"))) :=
  ⟨⟨by decide, by decide⟩,
    C6_delete_last_segment seg1 [track1] "t1" "s1" (by decide) (by decide)⟩

/-! ## Selection clicks and history (claim C4) -/

/-- C4 counterexample.  Toggling a segment's selection in the joiner calls
`push` on the full track list, so it does create a new undo entry, and the
pushed snapshot does carry the selection: from a fresh one-entry history
the length grows to 2 and the new current state records `selectedSegmentId
= some "s1"`. -/
theorem C4_selection_counterexample :
    (joinerToggleSelection 50 ⟨[[track1]], 0⟩ "t1" "s1").history.length = 2 ∧
    ¬ (joinerToggleSelection 50 ⟨[[track1]], 0⟩ "t1" "s1").history.length = 1 ∧
    ((joinerToggleSelection 50 ⟨[[track1]], 0⟩ "t1" "s1").current.getD 0
        default).selectedSegmentId = some "s1" ∧
    HistoryState.canUndo (joinerToggleSelection 50 ⟨[[track1]], 0⟩ "t1" "s1") = true := by
  decide

/-- C4 amended.  Selection state is part of the joiner's pushed snapshots:
below the cap, a selection toggle pushes one new history entry whose
current state is the selection-toggled track list, and a subsequent undo
restores the previous state — every selection click is an undo step. -/
theorem C4_selection_pushed (maxHistory : Nat) (h : HistoryState (List AudioTrack))
    (trackId segmentId : String)
    (h1 : h.currentIndex = h.history.length - 1) (h2 : h.history ≠ [])
    (h3 : h.history.length < maxHistory) :
    (joinerToggleSelection maxHistory h trackId segmentId).history.length =
      h.history.length + 1 ∧
    (joinerToggleSelection maxHistory h trackId segmentId).current =
      toggleSegmentSelection h.current trackId segmentId ∧
    (HistoryState.undo (joinerToggleSelection maxHistory h trackId segmentId)).current =
      h.current := by
  have hL : 1 ≤ h.history.length := List.length_pos.mpr h2
  have hmax : 1 ≤ maxHistory := by omega
  have hj : joinerToggleSelection maxHistory h trackId segmentId =
      HistoryState.push maxHistory h
        (toggleSegmentSelection h.current trackId segmentId) := rfl
  obtain ⟨hh, hi, hlen, hne⟩ := HistoryState.push_inv maxHistory hmax h
    (toggleSegmentSelection h.current trackId segmentId) h1 h2 (Nat.le_of_lt h3)
  have hdrop0 : h.history.length + 1 - maxHistory = 0 := by omega
  rw [hdrop0, List.drop_zero] at hh
  have hlen1 : (HistoryState.push maxHistory h
      (toggleSegmentSelection h.current trackId segmentId)).history.length =
      h.history.length + 1 := by
    rw [hlen]
    omega
  have hidx1 : (HistoryState.push maxHistory h
      (toggleSegmentSelection h.current trackId segmentId)).currentIndex =
      h.history.length := by
    rw [hi, hlen1]
    omega
  refine ⟨?_, ?_, ?_⟩
  · rw [hj, hlen1]
  · rw [hj]
    show (HistoryState.push maxHistory h
        (toggleSegmentSelection h.current trackId segmentId)).history.getD
      ((HistoryState.push maxHistory h
        (toggleSegmentSelection h.current trackId segmentId)).currentIndex) default =
      toggleSegmentSelection h.current trackId segmentId
    rw [hh, hidx1, List.getD_eq_getElem?_getD,
      List.getElem?_append_right (Nat.le_refl _), Nat.sub_self]
    rfl
  · rw [hj, HistoryState.undo, if_pos (show 0 < (HistoryState.push maxHistory h
      (toggleSegmentSelection h.current trackId segmentId)).currentIndex by
        rw [hidx1]; omega)]
    show (HistoryState.push maxHistory h
        (toggleSegmentSelection h.current trackId segmentId)).history.getD
      ((HistoryState.push maxHistory h
        (toggleSegmentSelection h.current trackId segmentId)).currentIndex - 1) default =
      h.current
    rw [hh, hidx1, List.getD_eq_getElem?_getD,
      List.getElem?_append_left (show h.history.length - 1 < h.history.length by omega)]
    show (h.history[h.history.length - 1]?).getD default =
      h.history.getD h.currentIndex default
    rw [List.getD_eq_getElem?_getD, h1]

/-- C4 amended witness: fresh one-entry history, cap 50. -/
theorem C4_selection_pushed_witness :
    ((⟨[[track1]], 0⟩ : HistoryState (List AudioTrack)).currentIndex =
        (⟨[[track1]], 0⟩ : HistoryState (List AudioTrack)).history.length - 1 ∧
      (⟨[[track1]], 0⟩ : HistoryState (List AudioTrack)).history ≠ [] ∧
      (⟨[[track1]], 0⟩ : HistoryState (List AudioTrack)).history.length < 50) ∧
    ((joinerToggleSelection 50 ⟨[[track1]], 0⟩ "t1" "s1").history.length =
        (⟨[[track1]], 0⟩ : HistoryState (List AudioTrack)).history.length + 1 ∧
      (joinerToggleSelection 50 ⟨[[track1]], 0⟩ "t1" "s1").current =
        toggleSegmentSelection
          (⟨[[track1]], 0⟩ : HistoryState (List AudioTrack)).current "t1" "s1" ∧
      (HistoryState.undo (joinerToggleSelection 50 ⟨[[track1]], 0⟩ "t1" "s1")).current =
        (⟨[[track1]], 0⟩ : HistoryState (List AudioTrack)).current) :=
  ⟨⟨by decide, by decide, by decide⟩,
    C4_selection_pushed 50 ⟨[[track1]], 0⟩ "t1" "s1" (by decide) (by decide) (by decide)⟩

/-! ## mergeAudioBuffers: totals and failure (claims C9, C2) -/

theorem merge_length (bs : List AudioBuffer) (h : bs ≠ []) :
    ∃ m, mergeAudioBuffers bs = .ok m ∧
      m.length = (bs.map (fun b => b.length)).sum ∧
      m.sampleRate = (bs.headD default).sampleRate := by
  match bs with
  | b0 :: rest => exact ⟨_, rfl, rfl, rfl⟩

theorem durationSum (bs : List AudioBuffer) (sr : ℚ)
    (hall : ∀ b ∈ bs, b.sampleRate = sr) :
    (bs.map (fun b => b.duration)).sum =
      (((bs.map (fun b => b.length)).sum : Nat) : ℚ) / sr := by
  induction bs with
  | nil => simp
  | cons b rest ih =>
    simp only [List.map_cons, List.sum_cons, Nat.cast_add]
    rw [ih (fun x hx => hall x (List.mem_cons_of_mem _ hx)),
      AudioBuffer.duration, hall b (List.mem_cons_self _ _), div_add_div_same]

/-- C9 amended.  `mergeAudioBuffers` fails with the empty-input error
exactly when the list is empty; and for every non-empty list of buffers
sharing one sample rate, the merged duration equals the sum of the input
durations exactly.  (With mixed sample rates the result divides the total
length by the first buffer's rate instead — see the counterexample.) -/
theorem C9_merge_duration (buffers : List AudioBuffer) (sr : ℚ)
    (hall : ∀ b ∈ buffers, b.sampleRate = sr) :
    ((∃ e, mergeAudioBuffers buffers = .error e) ↔ buffers = []) ∧
    (buffers ≠ [] → ∃ m, mergeAudioBuffers buffers = .ok m ∧
      m.duration = (buffers.map (fun b => b.duration)).sum) := by
  constructor
  · constructor
    · rintro ⟨e, he⟩
      by_contra hne
      obtain ⟨m, hm, _, _⟩ := merge_length buffers hne
      rw [hm] at he
      cases he
    · intro h
      subst h
      exact ⟨"No buffers to merge", rfl⟩
  · intro hne
    obtain ⟨m, hm, hlen, hsr2⟩ := merge_length buffers hne
    refine ⟨m, hm, ?_⟩
    rw [durationSum buffers sr hall, AudioBuffer.duration, hlen, hsr2]
    congr 1
    match buffers, hne with
    | b0 :: rest, _ => exact hall b0 (List.mem_cons_self _ _)

/-- C9 witness: two 1 Hz buffers. -/
theorem C9_merge_duration_witness :
    (∀ b ∈ [buf2, buf3], b.sampleRate = 1) ∧
    (((∃ e, mergeAudioBuffers [buf2, buf3] = .error e) ↔ ([buf2, buf3] : List AudioBuffer) = []) ∧
      (([buf2, buf3] : List AudioBuffer) ≠ [] →
        ∃ m, mergeAudioBuffers [buf2, buf3] = .ok m ∧
          m.duration = (([buf2, buf3] : List AudioBuffer).map (fun b => b.duration)).sum)) :=
  ⟨by with_unfolding_all decide, C9_merge_duration [buf2, buf3] 1 (by with_unfolding_all decide)⟩

/-- C9 counterexample.  With mixed sample rates the merged duration is the
total sample count over the FIRST buffer's rate: merging a 1-second buffer
at 2 Hz with a 1-second buffer at 3 Hz yields duration 5/2, not the 2
seconds the duration sum demands — an error of 1/2, far beyond
floating-point rounding. -/
theorem C9_mixed_rate_counterexample :
    exceptDuration (mergeAudioBuffers [⟨1, 2, 2, []⟩, ⟨1, 3, 3, []⟩]) = 5/2 ∧
    ((([⟨1, 2, 2, []⟩, ⟨1, 3, 3, []⟩] : List AudioBuffer).map
        (fun b => b.duration)).sum = 2) ∧
    ¬ (5/2 : ℚ) = 2 ∧ (1/4 : ℚ) < |(5/2 : ℚ) - 2| := by
  with_unfolding_all decide

/-! ## The joiner preview buffer (claim C2) -/

theorem collectTrackBuffers_ok (tracks : List AudioTrack)
    (hseg : ∀ t ∈ tracks, t.segments ≠ []) :
    ∃ l, collectTrackBuffers tracks = .ok l ∧
      l.map (fun b => b.length) =
        tracks.map (fun t => (t.segments.map (fun s => s.buffer.length)).sum) ∧
      l.length = tracks.length := by
  induction tracks with
  | nil => exact ⟨[], rfl, rfl, rfl⟩
  | cons t rest ih =>
    have ht : t.segments ≠ [] := hseg t (List.mem_cons_self _ _)
    have hmap : t.segments.map (fun s => s.buffer) ≠ [] := by
      simpa using ht
    obtain ⟨tb, htb, htblen, _⟩ := merge_length _ hmap
    obtain ⟨l, hl, hlmap, hllen⟩ := ih (fun x hx => hseg x (List.mem_cons_of_mem _ hx))
    refine ⟨tb :: l, ?_, ?_, ?_⟩
    · show (mergeAudioBuffers (t.segments.map (fun seg => seg.buffer)) >>= fun trackMerged =>
        collectTrackBuffers rest >>= fun restBuffers => Except.ok (trackMerged :: restBuffers)) =
        Except.ok (tb :: l)
      rw [htb, hl]
      rfl
    · simp only [List.map_cons, hlmap, htblen, List.map_map]
      rfl
    · simp [hllen]

/-- C2 amended.  Whenever a track list changes, the preview buffer is
recomputed by `mergeTracks`, which CONCATENATES the per-track merged
buffers end to end (`mergeAudioBuffers`, result length = sum of all
tracks' segment sample counts) rather than mixing them; it succeeds for
every non-empty session whose tracks all have at least one segment. -/
theorem C2_preview_concat (tracks : List AudioTrack)
    (hne : tracks ≠ []) (hseg : ∀ t ∈ tracks, t.segments ≠ []) :
    ∃ m, mergeTracks tracks = .ok m ∧
      m.length =
        (tracks.map (fun t => (t.segments.map (fun s => s.buffer.length)).sum)).sum := by
  obtain ⟨l, hl, hlmap, hllen⟩ := collectTrackBuffers_ok tracks hseg
  have hlne : l ≠ [] := by
    intro habs
    apply hne
    rw [habs] at hllen
    exact List.length_eq_zero.mp hllen.symm
  obtain ⟨m, hm, hmlen, _⟩ := merge_length l hlne
  refine ⟨m, ?_, ?_⟩
  · show (collectTrackBuffers tracks >>= mergeAudioBuffers) = Except.ok m
    rw [hl]
    exact hm
  · rw [hmlen, hlmap]

/-- C2 witness: a two-track session. -/
theorem C2_preview_concat_witness :
    (([track2, track3] : List AudioTrack) ≠ [] ∧
      (∀ t ∈ [track2, track3], t.segments ≠ [])) ∧
    (∃ m, mergeTracks [track2, track3] = .ok m ∧
      m.length = (([track2, track3] : List AudioTrack).map
        (fun t => (t.segments.map (fun s => s.buffer.length)).sum)).sum) :=
  ⟨⟨by decide, by decide⟩,
    C2_preview_concat [track2, track3] (by decide) (by decide)⟩

/-- C2 counterexample.  The preview of a 2-sample track and a 3-sample
track has 5 samples (concatenation), not the 3 samples a time-zero-aligned
mix (`mixAudioBuffers`) would produce: the tracks are appended, not
summed. -/
theorem C2_mix_counterexample :
    exceptLength (mergeTracks [track2, track3]) = 5 ∧
    exceptLength (mixAudioBuffers [buf2, buf3]) = 3 ∧
    ¬ (5 : Nat) = 3 := by
  with_unfolding_all decide

/-! ## Resize edge-fixing (claim C3) -/

theorem getD_set_self {α : Type} [Inhabited α] (l : List α) (n : Nat) (a : α)
    (h : n < l.length) : (l.set n a).getD n default = a := by
  rw [List.getD_eq_getElem?_getD]
  simp [List.getElem?_set_self, h]

/-- C3 amended.  Within the resize mouse-move handlers (the cutter's and
TrackTimeline's shared logic), the fixed edge is copied exactly: a
start-edge resize leaves the segment's endTime unchanged and an end-edge
resize leaves its startTime unchanged.  The joiner's commit
(`handleResizeSegment`) then re-derives all positions from accumulated
buffer durations, which moves the committed endTime after a start-edge
resize — see the counterexample. -/
theorem C3_resize_edge_fixing (segments : List AudioSegment) (duration newTime : ℚ)
    (segId : String)
    (hidx : segments.findIdx (fun s => s.id == segId) < segments.length) :
    ((resizeSegmentsStep segments duration segId ResizeEdge.startEdge newTime).getD
        (segments.findIdx (fun s => s.id == segId)) default).endTime =
      (segments.getD (segments.findIdx (fun s => s.id == segId)) default).endTime ∧
    ((resizeSegmentsStep segments duration segId ResizeEdge.endEdge newTime).getD
        (segments.findIdx (fun s => s.id == segId)) default).startTime =
      (segments.getD (segments.findIdx (fun s => s.id == segId)) default).startTime := by
  constructor
  · simp only [resizeSegmentsStep, if_pos hidx]
    split
    · rw [getD_set_self _ _ _ hidx]
    · rfl
  · simp only [resizeSegmentsStep, if_pos hidx]
    split
    · rw [getD_set_self _ _ _ hidx]
    · rfl

/-- C3 witness: resizing the only segment of `track1`. -/
theorem C3_resize_edge_fixing_witness :
    ([seg1].findIdx (fun s => s.id == "s1") < [seg1].length) ∧
    (((resizeSegmentsStep [seg1] 10 "s1" ResizeEdge.startEdge 2).getD
        ([seg1].findIdx (fun s => s.id == "s1")) default).endTime =
      ([seg1].getD ([seg1].findIdx (fun s => s.id == "s1")) default).endTime ∧
    ((resizeSegmentsStep [seg1] 10 "s1" ResizeEdge.endEdge 2).getD
        ([seg1].findIdx (fun s => s.id == "s1")) default).startTime =
      ([seg1].getD ([seg1].findIdx (fun s => s.id == "s1")) default).startTime) :=
  ⟨by decide, C3_resize_edge_fixing [seg1] 10 2 "s1" (by decide)⟩

/-- C3 counterexample.  In the joiner the committed state breaks exact
edge-fixing: dragging the start edge of the [0,10] segment to 2 produces a
resize list whose segment still ends at 10, but `handleResizeSegment`
re-derives positions from buffer durations, committing endTime 8 ≠ 10. -/
theorem C3_joiner_commit_counterexample :
    ((resizeSegmentsStep [seg1] 10 "s1" ResizeEdge.startEdge 2).getD 0 default).endTime =
      10 ∧
    ((((handleResizeSegment [track1] "t1" "s1"
        (resizeSegmentsStep [seg1] 10 "s1" ResizeEdge.startEdge 2)).getD 0
        default).segments.getD 0 default)).endTime = 8 ∧
    ¬ (8 : ℚ) = 10 := by
  with_unfolding_all decide

/-! ## trimAudioBuffer: clamping and the one-sample floor (claim C7) -/

theorem getD_range_map {α : Type} (n c : Nat) (g : Nat → α) (d : α) (h : c < n) :
    ((List.range n).map g).getD c d = g c := by
  rw [List.getD_eq_getElem?_getD, List.getElem?_map, List.getElem?_range h]
  rfl

/-- C7.  For every buffer and requested times, `trimAudioBuffer` returns at
least one sample; its length is exactly the floor-sample span of the
requested range with BOTH bounds clamped to `[0, duration]` (the source
clamps `endTime` to `[validStartTime, duration]` instead, which provably
yields the same buffer); and its samples are the input samples starting at
the clamped start index, zero past the end. -/
theorem C7_trim_clamped_nonempty (b : AudioBuffer) (s e : ℚ) (hsr : 0 ≤ b.sampleRate) :
    1 ≤ (trimAudioBuffer b s e).length ∧
    (trimAudioBuffer b s e).length =
      max 1 (clampedSampleIndex b e - clampedSampleIndex b s) ∧
    (∀ c, c < b.numChannels →
      (trimAudioBuffer b s e).channelData c =
        (List.range (trimAudioBuffer b s e).length).map
          (fun i => (b.channelData c).getD (clampedSampleIndex b s + i) 0)) := by
  refine ⟨le_max_left 1 _, ?_, ?_⟩
  · show max 1
        ((Int.floor ((max (max 0 (min s b.duration)) (min e b.duration)) *
          b.sampleRate)).toNat -
         (Int.floor ((max 0 (min s b.duration)) * b.sampleRate)).toNat) =
      max 1 (clampedSampleIndex b e - clampedSampleIndex b s)
    simp only [clampedSampleIndex, clampTimeTo]
    rcases le_total (max 0 (min s b.duration)) (min e b.duration) with hc | hc
    · rw [max_eq_right hc,
        max_eq_right (le_trans (le_max_left 0 (min s b.duration)) hc)]
    · rw [max_eq_left hc, Nat.sub_self]
      have h2 : max 0 (min e b.duration) ≤ max 0 (min s b.duration) :=
        max_le (le_max_left _ _) hc
      have h3 : (Int.floor ((max 0 (min e b.duration)) * b.sampleRate)).toNat ≤
          (Int.floor ((max 0 (min s b.duration)) * b.sampleRate)).toNat :=
        Int.toNat_le_toNat (Int.floor_le_floor (mul_le_mul_of_nonneg_right h2 hsr))
      rw [Nat.sub_eq_zero_of_le h3]
  · intro c hc
    exact getD_range_map b.numChannels c
      (fun ch => (List.range (trimAudioBuffer b s e).length).map
        (fun i => (b.channelData ch).getD (clampedSampleIndex b s + i) 0)) [] hc

/-- C7 witness: trimming `buf1` with an inverted request still yields one
sample. -/
theorem C7_trim_clamped_nonempty_witness :
    (0 ≤ buf1.sampleRate) ∧
    (1 ≤ (trimAudioBuffer buf1 7 2).length ∧
      (trimAudioBuffer buf1 7 2).length =
        max 1 (clampedSampleIndex buf1 2 - clampedSampleIndex buf1 7) ∧
      (∀ c, c < buf1.numChannels →
        (trimAudioBuffer buf1 7 2).channelData c =
          (List.range (trimAudioBuffer buf1 7 2).length).map
            (fun i => (buf1.channelData c).getD (clampedSampleIndex buf1 7 + i) 0))) :=
  ⟨by with_unfolding_all decide,
    C7_trim_clamped_nonempty buf1 7 2 (by with_unfolding_all decide)⟩

/-! ## mixAudioBuffers: alignment, summing, peak normalisation (claim C8) -/

theorem foldl_max_init_le {α β : Type} [LinearOrder β] (g : α → β) (l : List α) :
    ∀ a : β, a ≤ l.foldl (fun m x => max m (g x)) a := by
  induction l with
  | nil => intro a; simp
  | cons x rest ih =>
    intro a
    rw [List.foldl_cons]
    exact le_trans (le_max_left a (g x)) (ih (max a (g x)))

theorem mem_le_foldl_max {α β : Type} [LinearOrder β] (g : α → β) (l : List α) :
    ∀ (a : β) (x : α), x ∈ l → g x ≤ l.foldl (fun m x => max m (g x)) a := by
  induction l with
  | nil => intro a x hx; cases hx
  | cons y rest ih =>
    intro a x hx
    rw [List.foldl_cons]
    rcases List.mem_cons.mp hx with h | h
    · subst h
      exact le_trans (le_max_right a (g x)) (foldl_max_init_le g rest _)
    · exact ih _ x h

theorem foldl_max_mem {α β : Type} [LinearOrder β] (g : α → β) (l : List α) :
    ∀ a : β, l.foldl (fun m x => max m (g x)) a = a ∨
      l.foldl (fun m x => max m (g x)) a ∈ l.map g := by
  induction l with
  | nil => intro a; exact Or.inl rfl
  | cons x rest ih =>
    intro a
    rw [List.foldl_cons]
    rcases ih (max a (g x)) with h | h
    · rcases max_choice a (g x) with h2 | h2
      · exact Or.inl (h.trans h2)
      · exact Or.inr (by rw [h, h2]; exact List.mem_cons_self _ _)
    · exact Or.inr (List.mem_cons_of_mem _ h)

theorem mixFold_channels (nCh mLen : Nat) :
    ∀ (bs : List AudioBuffer) (f : Nat → Nat → ℚ) (acc : List (List ℚ)),
      acc = (List.range nCh).map (fun c => (List.range mLen).map (f c)) →
      List.foldl (fun acc b =>
        (List.range nCh).map (fun c =>
          (List.range mLen).map (fun i =>
            (acc.getD c []).getD i 0 + mixContribution c i b))) acc bs =
      (List.range nCh).map (fun c =>
        (List.range mLen).map (fun i => f c i + mixPre bs c i)) := by
  intro bs
  induction bs with
  | nil =>
    intro f acc hacc
    rw [List.foldl_nil, hacc]
    apply List.map_congr_left
    intro c _
    apply List.map_congr_left
    intro i _
    simp [mixPre]
  | cons b rest ih =>
    intro f acc hacc
    rw [List.foldl_cons]
    have hstep : (List.range nCh).map (fun c =>
        (List.range mLen).map (fun i =>
          (acc.getD c []).getD i 0 + mixContribution c i b)) =
        (List.range nCh).map (fun c =>
          (List.range mLen).map (fun i => f c i + mixContribution c i b)) := by
      apply List.map_congr_left
      intro c hc
      apply List.map_congr_left
      intro i hi
      rw [hacc, getD_range_map _ _ _ _ (List.mem_range.mp hc),
        getD_range_map _ _ _ _ (List.mem_range.mp hi)]
    rw [hstep, ih (fun c i => f c i + mixContribution c i b) _ rfl]
    apply List.map_congr_left
    intro c _
    apply List.map_congr_left
    intro i _
    simp only [mixPre, List.map_cons, List.sum_cons]
    ring

theorem mix_ok (buffers : List AudioBuffer) (hne : buffers ≠ []) :
    mixAudioBuffers buffers = .ok
      { numChannels := maxChOf buffers
        length := maxLenOf buffers
        sampleRate := (buffers.headD default).sampleRate
        channels := ((List.range (maxChOf buffers)).map (fun c =>
          (List.range (maxLenOf buffers)).map (fun i => mixPre buffers c i))).map
          (fun data => if 1 < peakOf data then
            data.map (fun x => x * (1 / peakOf data)) else data) } := by
  match buffers, hne with
  | b0 :: rest, _ =>
    simp only [mixAudioBuffers]
    rw [mixFold_channels _ _ _ (fun _ _ => (0 : ℚ)) _ rfl]
    simp only [zero_add]
    rfl

theorem mix_channel_samples (bs : List AudioBuffer) (nCh mLen c : Nat) (hc : c < nCh) :
    (∀ i, i < mLen →
      ((((List.range nCh).map (fun ch =>
          (List.range mLen).map (fun i => mixPre bs ch i))).map
          (fun data => if 1 < peakOf data then
            data.map (fun x => x * (1 / peakOf data)) else data)).getD c []).getD i 0 =
        if 1 < peakOf ((List.range mLen).map (fun j => mixPre bs c j)) then
          mixPre bs c i * (1 / peakOf ((List.range mLen).map (fun j => mixPre bs c j)))
        else mixPre bs c i) ∧
    (∀ i, |((((List.range nCh).map (fun ch =>
        (List.range mLen).map (fun i => mixPre bs ch i))).map
        (fun data => if 1 < peakOf data then
          data.map (fun x => x * (1 / peakOf data)) else data)).getD c []).getD i 0| ≤ 1) := by
  have hch : (((List.range nCh).map (fun ch =>
      (List.range mLen).map (fun i => mixPre bs ch i))).map
      (fun data => if 1 < peakOf data then
        data.map (fun x => x * (1 / peakOf data)) else data)).getD c [] =
      (if 1 < peakOf ((List.range mLen).map (fun j => mixPre bs c j)) then
        ((List.range mLen).map (fun j => mixPre bs c j)).map
          (fun x => x * (1 / peakOf ((List.range mLen).map (fun j => mixPre bs c j))))
      else ((List.range mLen).map (fun j => mixPre bs c j))) := by
    rw [List.map_map]
    exact getD_range_map _ _ _ _ hc
  rw [hch]
  by_cases hpk : 1 < peakOf ((List.range mLen).map (fun j => mixPre bs c j))
  · simp only [if_pos hpk]
    have hsample : ∀ i, i < mLen →
        ((((List.range mLen).map (fun j => mixPre bs c j)).map
          (fun x => x * (1 / peakOf ((List.range mLen).map (fun j => mixPre bs c j))))).getD
            i 0) =
          mixPre bs c i *
            (1 / peakOf ((List.range mLen).map (fun j => mixPre bs c j))) := by
      intro i hi
      rw [List.map_map]
      exact getD_range_map _ _ _ _ hi
    refine ⟨hsample, ?_⟩
    intro i
    rcases Nat.lt_or_ge i mLen with hi | hi
    · rw [hsample i hi]
      have hpre_le : |mixPre bs c i| ≤
          peakOf ((List.range mLen).map (fun j => mixPre bs c j)) :=
        mem_le_foldl_max abs ((List.range mLen).map (fun j => mixPre bs c j)) 0 _
          (List.mem_map_of_mem _ (List.mem_range.mpr hi))
      have hppos : (0 : ℚ) < peakOf ((List.range mLen).map (fun j => mixPre bs c j)) :=
        lt_trans one_pos hpk
      have hinv : (0 : ℚ) < 1 / peakOf ((List.range mLen).map (fun j => mixPre bs c j)) :=
        div_pos one_pos hppos
      rw [abs_mul, abs_of_pos hinv]
      calc |mixPre bs c i| * (1 / peakOf ((List.range mLen).map (fun j => mixPre bs c j)))
          ≤ peakOf ((List.range mLen).map (fun j => mixPre bs c j)) *
            (1 / peakOf ((List.range mLen).map (fun j => mixPre bs c j))) :=
            mul_le_mul_of_nonneg_right hpre_le (le_of_lt hinv)
        _ = 1 := by field_simp
    · rw [List.getD_eq_default _ _ (by simpa using hi)]
      simp
  · simp only [if_neg hpk]
    have hbound : ∀ x ∈ (List.range mLen).map (fun j => mixPre bs c j), |x| ≤ 1 := by
      intro x hx
      exact le_trans (mem_le_foldl_max abs _ 0 x hx) (not_lt.mp hpk)
    constructor
    · intro i hi
      exact getD_range_map _ _ _ _ hi
    · intro i
      rcases Nat.lt_or_ge i ((List.range mLen).map (fun j => mixPre bs c j)).length
        with hi | hi
      · have hmem : ((List.range mLen).map (fun j => mixPre bs c j)).getD i 0 ∈
            (List.range mLen).map (fun j => mixPre bs c j) := by
          rw [List.getD_eq_getElem?_getD, List.getElem?_eq_getElem hi]
          exact List.getElem_mem hi
        exact hbound _ hmem
      · rw [List.getD_eq_default _ _ hi]
        simp

/-- C8.  For every non-empty buffer list, `mixAudioBuffers` succeeds with a
buffer whose length is the maximal input length (attained by some input),
whose channel count is the maximal input channel count, and whose samples
per channel are: the time-zero-aligned sum of all inputs (shorter inputs
zero past their end), scaled by the single global factor `1/peak` exactly
when that channel's post-sum peak exceeds 1, so every output sample has
absolute value at most 1 and within a channel all samples share one gain
factor (relative dynamics preserved). -/
theorem C8_mix_spec (buffers : List AudioBuffer) (hne : buffers ≠ []) :
    ∃ m, mixAudioBuffers buffers = .ok m ∧
      m.length = maxLenOf buffers ∧
      (∀ b ∈ buffers, b.length ≤ m.length) ∧
      m.length ∈ buffers.map (fun b => b.length) ∧
      m.numChannels = maxChOf buffers ∧
      (∀ c, c < m.numChannels →
        (∀ i, i < m.length →
          (m.channelData c).getD i 0 =
            if 1 < peakOf ((List.range m.length).map (fun j => mixPre buffers c j)) then
              mixPre buffers c i *
                (1 / peakOf ((List.range m.length).map (fun j => mixPre buffers c j)))
            else mixPre buffers c i) ∧
        (∀ i, |(m.channelData c).getD i 0| ≤ 1)) := by
  refine ⟨_, mix_ok buffers hne, rfl, ?_, ?_, rfl, ?_⟩
  · intro b hb
    exact mem_le_foldl_max (fun x => x.length) buffers 0 b hb
  · rcases foldl_max_mem (fun x => x.length) buffers 0 with h0 | hmem
    · cases buffers with
      | nil => exact absurd rfl hne
      | cons b0 rest =>
        have hle : b0.length ≤ maxLenOf (b0 :: rest) :=
          mem_le_foldl_max (fun x => x.length) _ 0 b0 (List.mem_cons_self _ _)
        have hz : b0.length = 0 := Nat.le_zero.mp (h0 ▸ hle)
        show maxLenOf (b0 :: rest) ∈ (b0 :: rest).map (fun b => b.length)
        rw [show maxLenOf (b0 :: rest) = b0.length from by rw [hz]; exact h0]
        exact List.mem_map_of_mem _ (List.mem_cons_self _ _)
    · exact hmem
  · intro c hc
    exact mix_channel_samples buffers (maxChOf buffers) (maxLenOf buffers) c hc

/-- C8 witness: mixing the 2-sample and 3-sample fixtures. -/
theorem C8_mix_spec_witness :
    (([buf2, buf3] : List AudioBuffer) ≠ []) ∧
    (∃ m, mixAudioBuffers [buf2, buf3] = .ok m ∧
      m.length = maxLenOf [buf2, buf3] ∧
      (∀ b ∈ [buf2, buf3], b.length ≤ m.length) ∧
      m.length ∈ ([buf2, buf3] : List AudioBuffer).map (fun b => b.length) ∧
      m.numChannels = maxChOf [buf2, buf3] ∧
      (∀ c, c < m.numChannels →
        (∀ i, i < m.length →
          (m.channelData c).getD i 0 =
            if 1 < peakOf ((List.range m.length).map (fun j => mixPre [buf2, buf3] c j))
            then mixPre [buf2, buf3] c i *
              (1 / peakOf ((List.range m.length).map (fun j => mixPre [buf2, buf3] c j)))
            else mixPre [buf2, buf3] c i) ∧
        (∀ i, |(m.channelData c).getD i 0| ≤ 1))) :=
  ⟨by decide, C8_mix_spec [buf2, buf3] (by decide)⟩

/-! ## Tiling after mutations (claim C1) -/

theorem trim_sampleRate (b : AudioBuffer) (s e : ℚ) :
    (trimAudioBuffer b s e).sampleRate = b.sampleRate := rfl

theorem getD_mem {α : Type} [Inhabited α] (l : List α) (n : Nat) (h : n < l.length) :
    l.getD n default ∈ l := by
  rw [List.getD_eq_getElem?_getD, List.getElem?_eq_getElem h]
  exact List.getElem_mem h

/-- An interior cut splits the sample count exactly: floor-rounding drops
no samples because the two trims use the same floor boundary. -/
theorem trim_cut_lengths (b : AudioBuffer) (hsr : 100 ≤ b.sampleRate) (rel : ℚ)
    (h1 : 1/100 < rel) (h2 : rel < b.duration - 1/100) :
    (trimAudioBuffer b 0 rel).length + (trimAudioBuffer b rel b.duration).length =
      b.length := by
  have hsr0 : (0 : ℚ) < b.sampleRate := lt_of_lt_of_le (by norm_num) hsr
  have hrelpos : (0 : ℚ) < rel := lt_trans (by norm_num) h1
  have hreldur : rel < b.duration := by
    have h100 : (0 : ℚ) < 1/100 := by norm_num
    linarith
  have hdurpos : (0 : ℚ) < b.duration := lt_trans hrelpos hreldur
  have hds : b.duration * b.sampleRate = (b.length : ℚ) := by
    rw [AudioBuffer.duration]
    exact div_mul_cancel₀ _ (ne_of_gt hsr0)
  have hE1 : (1 : ℤ) ≤ Int.floor (rel * b.sampleRate) := by
    apply Int.le_floor.mpr
    push_cast
    calc (1 : ℚ) = (1/100) * 100 := by norm_num
    _ ≤ rel * b.sampleRate :=
      mul_le_mul (le_of_lt h1) hsr (by norm_num) (le_of_lt hrelpos)
  have hEL : Int.floor (rel * b.sampleRate) ≤ (b.length : ℤ) - 1 := by
    have hmul : rel * b.sampleRate < (b.duration - 1/100) * b.sampleRate :=
      mul_lt_mul_of_pos_right h2 hsr0
    have hexp : (b.duration - 1/100) * b.sampleRate =
        b.duration * b.sampleRate - b.sampleRate/100 := by ring
    have hsr100 : (1 : ℚ) ≤ b.sampleRate/100 := by linarith
    have hle : rel * b.sampleRate ≤ (b.length : ℚ) - 1 := by
      rw [hexp, hds] at hmul
      linarith
    have h4 := Int.floor_le_floor hle
    rwa [show ((b.length : ℚ) - 1) = (((b.length : ℤ) - 1 : ℤ) : ℚ) by push_cast; ring,
      Int.floor_intCast] at h4
  have hvs0 : max 0 (min (0 : ℚ) b.duration) = 0 := by
    rw [min_eq_left (le_of_lt hdurpos)]
    exact max_self 0
  have hvsr : max 0 (min rel b.duration) = rel := by
    rw [min_eq_left (le_of_lt hreldur)]
    exact max_eq_right (le_of_lt hrelpos)
  have hlen1 : (trimAudioBuffer b 0 rel).length =
      (Int.floor (rel * b.sampleRate)).toNat := by
    show max 1 ((Int.floor ((max (max 0 (min (0 : ℚ) b.duration)) (min rel b.duration)) *
        b.sampleRate)).toNat -
      (Int.floor ((max 0 (min (0 : ℚ) b.duration)) * b.sampleRate)).toNat) =
      (Int.floor (rel * b.sampleRate)).toNat
    rw [hvs0, hvsr, zero_mul, Int.floor_zero]
    simp only [Int.toNat_zero, Nat.sub_zero]
    exact max_eq_right (by omega)
  have hlen2 : (trimAudioBuffer b rel b.duration).length =
      b.length - (Int.floor (rel * b.sampleRate)).toNat := by
    show max 1 ((Int.floor ((max (max 0 (min rel b.duration)) (min b.duration b.duration)) *
        b.sampleRate)).toNat -
      (Int.floor ((max 0 (min rel b.duration)) * b.sampleRate)).toNat) =
      b.length - (Int.floor (rel * b.sampleRate)).toNat
    rw [hvsr, min_self, max_eq_right (le_of_lt hreldur), hds, Int.floor_natCast]
    simp only [Int.toNat_natCast]
    exact max_eq_right (by omega)
  rw [hlen1, hlen2]
  omega

/-- The two interior-cut pieces together last exactly as long as the
original buffer (exact in ℚ; the spec's 0.05s tolerance is not needed). -/
theorem cut_piece_durations (b : AudioBuffer) (hsr : 100 ≤ b.sampleRate) (rel : ℚ)
    (h1 : 1/100 < rel) (h2 : rel < b.duration - 1/100) :
    (trimAudioBuffer b 0 rel).duration + (trimAudioBuffer b rel b.duration).duration =
      b.duration := by
  have hsum := trim_cut_lengths b hsr rel h1 h2
  show ((trimAudioBuffer b 0 rel).length : ℚ) / (trimAudioBuffer b 0 rel).sampleRate +
      ((trimAudioBuffer b rel b.duration).length : ℚ) /
        (trimAudioBuffer b rel b.duration).sampleRate =
    (b.length : ℚ) / b.sampleRate
  rw [trim_sampleRate, trim_sampleRate, div_add_div_same]
  congr 1
  exact_mod_cast hsum

theorem segSum_cons (a : AudioSegment) (l : List AudioSegment) :
    segSum (a :: l) = a.buffer.duration + segSum l := by
  simp [segSum]

theorem dur_nonneg_of_sr (s : AudioSegment) (sr : ℚ) (hsr : 0 < sr)
    (h : s.buffer.sampleRate = sr) : 0 ≤ s.buffer.duration := by
  rw [AudioBuffer.duration, h]
  positivity

theorem retile_chain (tol : ℚ) (h0 : 0 ≤ tol) :
    ∀ (segs : List AudioSegment) (pos : ℚ),
      (∀ s ∈ segs, 0 ≤ s.buffer.duration) → chainB tol (retile pos segs) = true := by
  intro segs
  induction segs with
  | nil => intro pos _; rfl
  | cons a rest ih =>
    intro pos hd
    cases rest with
    | nil => rfl
    | cons b rest2 =>
      show chainB tol ({a with startTime := pos, endTime := pos + a.buffer.duration} ::
        {b with
          startTime := pos + a.buffer.duration
          endTime := pos + a.buffer.duration + b.buffer.duration} ::
        retile (pos + a.buffer.duration + b.buffer.duration) rest2) = true
      rw [chainB]
      simp only [Bool.and_eq_true, decide_eq_true_eq]
      refine ⟨⟨?_, ?_⟩, ?_⟩
      · have := hd a (List.mem_cons_self _ _)
        linarith
      · rw [sub_self, abs_zero]
        exact h0
      · exact ih (pos + a.buffer.duration)
          (fun s hs => hd s (List.mem_cons_of_mem _ hs))

theorem retile_last :
    ∀ (segs : List AudioSegment) (pos : ℚ), segs ≠ [] →
      ∃ lastSeg, (retile pos segs).getLast? = some lastSeg ∧
        lastSeg.endTime = pos + segSum segs := by
  intro segs
  induction segs with
  | nil => intro pos h; exact absurd rfl h
  | cons a rest ih =>
    intro pos _
    cases rest with
    | nil =>
      refine ⟨{a with startTime := pos, endTime := pos + a.buffer.duration}, rfl, ?_⟩
      show pos + a.buffer.duration = pos + segSum [a]
      rw [segSum_cons]
      show pos + a.buffer.duration = pos + (a.buffer.duration + segSum [])
      rw [show segSum [] = 0 from rfl]
      ring
    | cons b rest2 =>
      obtain ⟨lastSeg, hl, he⟩ := ih (pos + a.buffer.duration) (by simp)
      refine ⟨lastSeg, ?_, ?_⟩
      · show ({a with startTime := pos, endTime := pos + a.buffer.duration} ::
          retile (pos + a.buffer.duration) (b :: rest2)).getLast? = some lastSeg
        rw [show retile (pos + a.buffer.duration) (b :: rest2) =
          {b with
            startTime := pos + a.buffer.duration
            endTime := pos + a.buffer.duration + b.buffer.duration} ::
          retile (pos + a.buffer.duration + b.buffer.duration) rest2 from rfl,
          List.getLast?_cons_cons]
        rw [show ({b with
            startTime := pos + a.buffer.duration
            endTime := pos + a.buffer.duration + b.buffer.duration} ::
          retile (pos + a.buffer.duration + b.buffer.duration) rest2) =
          retile (pos + a.buffer.duration) (b :: rest2) from rfl]
        exact hl
      · rw [he]
        simp only [segSum_cons]
        ring

theorem tilesB_retile (tol dur : ℚ) (h0 : 0 ≤ tol) (segs : List AudioSegment)
    (hd : ∀ s ∈ segs, 0 ≤ s.buffer.duration)
    (hsum : |segSum segs - dur| ≤ tol) :
    tilesB tol dur (retile 0 segs) = true := by
  cases segs with
  | nil => rfl
  | cons a rest =>
    obtain ⟨lastSeg, hlast, hend⟩ := retile_last (a :: rest) 0 (by simp)
    rw [show retile 0 (a :: rest) =
      {a with startTime := 0, endTime := 0 + a.buffer.duration} ::
        retile (0 + a.buffer.duration) rest from rfl]
    rw [tilesB]
    simp only [Bool.and_eq_true, decide_eq_true_eq]
    refine ⟨⟨?_, ?_⟩, ?_⟩
    · rw [abs_zero]
      exact h0
    · exact retile_chain tol h0 (a :: rest) 0 hd
    · have hgl : (({a with startTime := 0, endTime := 0 + a.buffer.duration} ::
          retile (0 + a.buffer.duration) rest).getLastD default) = lastSeg := by
        rw [List.getLastD_eq_getLast?,
          show ({a with startTime := 0, endTime := 0 + a.buffer.duration} ::
            retile (0 + a.buffer.duration) rest) = retile 0 (a :: rest) from rfl,
          hlast]
        rfl
      rw [hgl, hend, zero_add]
      exact hsum

theorem cutLoop_eq_retile_expand (cutTime : ℚ) :
    ∀ (segs : List AudioSegment) (cutMade : Bool) (pos : ℚ),
      cutLoop cutTime cutMade pos segs = retile pos (expandCut cutTime cutMade segs) := by
  intro segs
  induction segs with
  | nil => intro cm pos; rfl
  | cons seg rest ih =>
    intro cm pos
    by_cases hcond : cm = false ∧ seg.startTime + 1/100 < cutTime ∧
        cutTime < seg.endTime - 1/100
    · simp only [cutLoop, expandCut, if_pos hcond]
      rw [ih]
      rfl
    · simp only [cutLoop, expandCut, if_neg hcond]
      rw [ih]
      rfl

theorem expandCut_sr (cutTime sr : ℚ) :
    ∀ (segs : List AudioSegment) (cutMade : Bool),
      (∀ s ∈ segs, s.buffer.sampleRate = sr) →
      ∀ s ∈ expandCut cutTime cutMade segs, s.buffer.sampleRate = sr := by
  intro segs
  induction segs with
  | nil => intro cm _ s hs; cases hs
  | cons seg rest ih =>
    intro cm hall s hs
    by_cases hcond : cm = false ∧ seg.startTime + 1/100 < cutTime ∧
        cutTime < seg.endTime - 1/100
    · rw [expandCut, if_pos hcond] at hs
      rcases List.mem_cons.mp hs with h | hs2
      · rw [h]
        exact hall seg (List.mem_cons_self _ _)
      rcases List.mem_cons.mp hs2 with h | hs3
      · rw [h]
        exact hall seg (List.mem_cons_self _ _)
      · exact ih true (fun x hx => hall x (List.mem_cons_of_mem _ hx)) s hs3
    · rw [expandCut, if_neg hcond] at hs
      rcases List.mem_cons.mp hs with h | hs2
      · rw [h]
        exact hall seg (List.mem_cons_self _ _)
      · exact ih cm (fun x hx => hall x (List.mem_cons_of_mem _ hx)) s hs2

theorem expandCut_segSum (cutTime sr : ℚ) (hsr : 100 ≤ sr) :
    ∀ (segs : List AudioSegment) (cutMade : Bool),
      (∀ s ∈ segs, segWF sr s) →
      segSum (expandCut cutTime cutMade segs) = segSum segs := by
  intro segs
  induction segs with
  | nil => intro cm _; rfl
  | cons seg rest ih =>
    intro cm hwf
    by_cases hcond : cm = false ∧ seg.startTime + 1/100 < cutTime ∧
        cutTime < seg.endTime - 1/100
    · simp only [expandCut, if_pos hcond]
      obtain ⟨hwfs, hlen⟩ := hwf seg (List.mem_cons_self _ _)
      obtain ⟨_, h1c, h2c⟩ := hcond
      have hb100 : 100 ≤ seg.buffer.sampleRate := by rw [hwfs]; exact hsr
      have hr1 : 1/100 < cutTime - seg.startTime := by linarith
      have hr2 : cutTime - seg.startTime < seg.buffer.duration - 1/100 := by
        rw [← hlen]
        linarith
      have hpieces := cut_piece_durations seg.buffer hb100 (cutTime - seg.startTime) hr1 hr2
      show (trimAudioBuffer seg.buffer 0 (cutTime - seg.startTime)).duration +
        ((trimAudioBuffer seg.buffer (cutTime - seg.startTime)
          seg.buffer.duration).duration + segSum (expandCut cutTime true rest)) =
        seg.buffer.duration + segSum rest
      rw [ih true (fun s hs => hwf s (List.mem_cons_of_mem _ hs))]
      linarith
    · simp only [expandCut, if_neg hcond]
      show seg.buffer.duration + segSum (expandCut cutTime cm rest) =
        seg.buffer.duration + segSum rest
      rw [ih cm (fun s hs => hwf s (List.mem_cons_of_mem _ hs))]

theorem segSum_div (segs : List AudioSegment) (sr : ℚ)
    (h : ∀ s ∈ segs, s.buffer.sampleRate = sr) :
    segSum segs = (((segs.map (fun s => s.buffer.length)).sum : Nat) : ℚ) / sr := by
  induction segs with
  | nil => simp [segSum]
  | cons a rest ih =>
    rw [segSum_cons, ih (fun x hx => h x (List.mem_cons_of_mem _ hx)),
      AudioBuffer.duration, h a (List.mem_cons_self _ _)]
    rw [List.map_cons, List.sum_cons, Nat.cast_add, div_add_div_same]

/-- Tiling of a retiled, re-merged segment list: the chain is exact and the
new cached duration is exactly the segment-duration sum. -/
theorem tiles_after_retile_merge (segs : List AudioSegment) (sr : ℚ) (hsr : 0 < sr)
    (hne : segs ≠ []) (hall : ∀ s ∈ segs, s.buffer.sampleRate = sr) (M : AudioBuffer)
    (hM : mergeAudioBuffers (segs.map (fun s => s.buffer)) = .ok M) :
    tilesB (1/20) M.duration (retile 0 segs) = true := by
  obtain ⟨m2, hm2, hlen, hsr2⟩ := merge_length (segs.map (fun s => s.buffer))
    (by simpa using hne)
  rw [hM] at hm2
  injection hm2 with hm2
  subst hm2
  have hmap : List.map (fun b => b.length) (List.map (fun s : AudioSegment => s.buffer) segs) =
      List.map (fun s : AudioSegment => s.buffer.length) segs := by
    rw [List.map_map]
    rfl
  have hhead : ((segs.map (fun s : AudioSegment => s.buffer)).headD default).sampleRate = sr := by
    cases segs with
    | nil => exact absurd rfl hne
    | cons a rest => exact hall a (List.mem_cons_self _ _)
  have hdur : M.duration = segSum segs := by
    rw [AudioBuffer.duration, hlen, hsr2, hmap, hhead, segSum_div segs sr hall]
  apply tilesB_retile _ _ (by norm_num) segs
  · intro s hs
    exact dur_nonneg_of_sr s sr hsr (hall s hs)
  · rw [hdur, sub_self, abs_zero]
    norm_num

/-- C1 amended.  For a session whose audio shares one sample rate (≥ 100 Hz,
as every Web Audio rate is) and whose tracks are well formed, the tiling
invariant — segments sorted by startTime, first startTime 0, each endTime
meeting the next startTime, last endTime equal to the track duration,
within 0.05 s — holds for every track after cut-at-position
(`handleCutTrack`), delete-segment (`handleDeleteSegment`) and the
joiner's committed resize (`handleResizeSegment`).  The cutter's
resize-edge push is the exception — see the counterexample. -/
theorem C1_tiling_after_mutations (sr : ℚ) (tracks : List AudioTrack)
    (trackId segmentId : String) (cutTime : ℚ) (newSegments : List AudioSegment)
    (hsr : 100 ≤ sr)
    (htr : ∀ t ∈ tracks, trackWF sr t ∧ tilesB (1/20) t.duration t.segments = true)
    (hnew : ∀ s ∈ newSegments, s.buffer.sampleRate = sr) :
    (∀ t ∈ handleCutTrack tracks trackId cutTime,
      tilesB (1/20) t.duration t.segments = true) ∧
    (∀ t ∈ handleDeleteSegment tracks trackId segmentId,
      tilesB (1/20) t.duration t.segments = true) ∧
    (∀ t ∈ handleResizeSegment tracks trackId segmentId newSegments,
      tilesB (1/20) t.duration t.segments = true) := by
  have hsr0 : (0 : ℚ) < sr := lt_of_lt_of_le (by norm_num) hsr
  refine ⟨?_, ?_, ?_⟩
  · intro t ht
    simp only [handleCutTrack] at ht
    by_cases hidx : tracks.findIdx (fun t => t.id == trackId) < tracks.length
    · rw [if_pos hidx] at ht
      by_cases hfound : cutFound cutTime false
          (tracks.getD (tracks.findIdx (fun t => t.id == trackId)) default).segments = true
      · rw [if_pos hfound] at ht
        rcases List.mem_or_eq_of_mem_set ht with hmem | heq
        · exact (htr t hmem).2
        · obtain ⟨⟨hwfseg, hsum⟩, _⟩ := htr _ (getD_mem tracks _ hidx)
          rw [heq]
          show tilesB (1/20)
            (tracks.getD (tracks.findIdx (fun t => t.id == trackId)) default).duration
            (cutLoop cutTime false 0
              (tracks.getD (tracks.findIdx (fun t => t.id == trackId))
                default).segments) = true
          rw [cutLoop_eq_retile_expand]
          apply tilesB_retile _ _ (by norm_num)
          · intro s hs
            apply dur_nonneg_of_sr s sr hsr0
            exact expandCut_sr cutTime sr _ false (fun x hx => (hwfseg x hx).1) s hs
          · rw [expandCut_segSum cutTime sr hsr _ false hwfseg]
            exact hsum
      · rw [if_neg hfound] at ht
        exact (htr t ht).2
    · rw [if_neg hidx] at ht
      exact (htr t ht).2
  · intro t ht
    simp only [handleDeleteSegment] at ht
    by_cases hidx : tracks.findIdx (fun t => t.id == trackId) < tracks.length
    · rw [if_pos hidx] at ht
      by_cases hempty : ((tracks.getD (tracks.findIdx (fun t => t.id == trackId))
          default).segments.filter (fun seg => !(seg.id == segmentId))).isEmpty = true
      · rw [if_pos hempty] at ht
        exact (htr t (List.mem_of_mem_filter ht)).2
      · rw [if_neg hempty] at ht
        obtain ⟨⟨hwfseg, _⟩, _⟩ := htr _ (getD_mem tracks _ hidx)
        have hne2 : (tracks.getD (tracks.findIdx (fun t => t.id == trackId))
            default).segments.filter (fun seg => !(seg.id == segmentId)) ≠ [] := by
          intro habs
          apply hempty
          rw [habs]
          rfl
        have hall2 : ∀ s ∈ (tracks.getD (tracks.findIdx (fun t => t.id == trackId))
            default).segments.filter (fun seg => !(seg.id == segmentId)),
            s.buffer.sampleRate = sr :=
          fun s hs => (hwfseg s (List.mem_of_mem_filter hs)).1
        have hmapne : ((tracks.getD (tracks.findIdx (fun t => t.id == trackId))
            default).segments.filter (fun seg => !(seg.id == segmentId))).map
            (fun seg => seg.buffer) ≠ [] :=
          fun habs => hne2 (List.map_eq_nil_iff.mp habs)
        obtain ⟨M, hM, hlen, hsr2⟩ := merge_length _ hmapne
        simp only [hM] at ht
        rcases List.mem_or_eq_of_mem_set ht with hmem | heq
        · exact (htr t hmem).2
        · rw [heq]
          exact tiles_after_retile_merge _ sr hsr0 hne2 hall2 M hM
    · rw [if_neg hidx] at ht
      exact (htr t ht).2
  · intro t ht
    simp only [handleResizeSegment] at ht
    by_cases hidx : tracks.findIdx (fun t => t.id == trackId) < tracks.length
    · rw [if_pos hidx] at ht
      by_cases hridx : newSegments.findIdx (fun s => s.id == segmentId) <
          newSegments.length
      · rw [if_pos hridx] at ht
        obtain ⟨⟨hwfseg, _⟩, _⟩ := htr _ (getD_mem tracks _ hidx)
        set updated := (tracks.getD (tracks.findIdx (fun t => t.id == trackId))
            default).segments.set (newSegments.findIdx (fun s => s.id == segmentId))
            (newSegments.getD (newSegments.findIdx (fun s => s.id == segmentId))
              default) with hup
        by_cases hun : updated = []
        · have hErr : mergeAudioBuffers (updated.map (fun seg => seg.buffer)) =
              .error "No buffers to merge" := by
            rw [hun]
            rfl
          simp only [hErr] at ht
          exact (htr t ht).2
        · have hall2 : ∀ s ∈ updated, s.buffer.sampleRate = sr := by
            intro s hs
            rcases List.mem_or_eq_of_mem_set (hup ▸ hs) with h | h
            · exact (hwfseg s h).1
            · rw [h]
              exact hnew _ (getD_mem newSegments _ hridx)
          have hmapne2 : updated.map (fun seg => seg.buffer) ≠ [] :=
            fun habs => hun (List.map_eq_nil_iff.mp habs)
          obtain ⟨M, hM, _, _⟩ := merge_length _ hmapne2
          simp only [hM] at ht
          rcases List.mem_or_eq_of_mem_set ht with hmem | heq
          · exact (htr t hmem).2
          · rw [heq]
            exact tiles_after_retile_merge updated sr hsr0 hun hall2 M hM
      · rw [if_neg hridx] at ht
        exact (htr t ht).2
    · rw [if_neg hidx] at ht
      exact (htr t ht).2

/-- C1 witness: a one-segment 100 Hz track; cut at 4 s, delete segment s1,
resize with an empty UI list. -/
theorem C1_tiling_after_mutations_witness :
    ((100 : ℚ) ≤ 100 ∧
      (∀ t ∈ [trackW], trackWF 100 t ∧ tilesB (1/20) t.duration t.segments = true) ∧
      (∀ s ∈ ([] : List AudioSegment), s.buffer.sampleRate = 100)) ∧
    ((∀ t ∈ handleCutTrack [trackW] "t1" 4,
        tilesB (1/20) t.duration t.segments = true) ∧
      (∀ t ∈ handleDeleteSegment [trackW] "t1" "s1",
        tilesB (1/20) t.duration t.segments = true) ∧
      (∀ t ∈ handleResizeSegment [trackW] "t1" "s1" [],
        tilesB (1/20) t.duration t.segments = true)) :=
  ⟨⟨by with_unfolding_all decide, by with_unfolding_all decide,
      by with_unfolding_all decide⟩,
    C1_tiling_after_mutations 100 [trackW] "t1" "s1" 4 []
      (by with_unfolding_all decide) (by with_unfolding_all decide)
      (by with_unfolding_all decide)⟩

/-- C1 counterexample.  The cutter's resize-segment-edge push violates the
tiling invariant: on segments [0,4] and [4,10], dragging the second
segment's start edge to 6 pushes [0,4],[6,10] — a 2-second gap (endTime 4
against next startTime 6), far beyond the 0.05 s tolerance, whether the
total duration is taken as the stale 10 s or the re-merged 8 s. -/
theorem C1_tiling_counterexample :
    ((resizeSegmentsStep
        [⟨"sa", ⟨1, 4, 1, []⟩, 0, 4, false⟩, ⟨"sb", ⟨1, 6, 1, []⟩, 4, 10, false⟩]
        10 "sb" ResizeEdge.startEdge 6).getD 0 default).endTime = 4 ∧
    ((resizeSegmentsStep
        [⟨"sa", ⟨1, 4, 1, []⟩, 0, 4, false⟩, ⟨"sb", ⟨1, 6, 1, []⟩, 4, 10, false⟩]
        10 "sb" ResizeEdge.startEdge 6).getD 1 default).startTime = 6 ∧
    tilesB (1/20) 10 (resizeSegmentsStep
        [⟨"sa", ⟨1, 4, 1, []⟩, 0, 4, false⟩, ⟨"sb", ⟨1, 6, 1, []⟩, 4, 10, false⟩]
        10 "sb" ResizeEdge.startEdge 6) = false ∧
    tilesB (1/20) 8 (resizeSegmentsStep
        [⟨"sa", ⟨1, 4, 1, []⟩, 0, 4, false⟩, ⟨"sb", ⟨1, 6, 1, []⟩, 4, 10, false⟩]
        10 "sb" ResizeEdge.startEdge 6) = false := by
  with_unfolding_all decide

end SetSound
